import Mathlib

/-!
Verification of the strike-selection and filtering core of the
OTM option-chain scanner (src/tmgstrmli.py).

The shallow embedding below translates the pure data logic of the script:

* `CompactRow` — one row of the compact chain table built by
  `build_compact_chain_table_nt` (columns: Strike Price, CE_OI_Change_%,
  CE_OI, PE_OI_Change_%, PE_OI).  Metric and OI columns are `Option ℚ`,
  with `none` standing for a missing or NaN value (the result of
  `pd.to_numeric(..., errors="coerce")` on absent data).
* `get_otm_strikes` — the strike selector (lines 235 to 249 of the source).
* `filter_by_threshold` — the decay and spike threshold filter applied to
  each side (lines 469 to 476 and 511 to 518 of the source); the `le`
  direction is literally the decay filter of the code, the `ge` direction
  is the spike direction of the same comparison pattern.
* `classify` and `style_greeks_cell` — the per-cell IV spike/crush branch
  structure of `style_greeks` (lines 254 to 272).
* `build_compact_chain_table_nt` — the compact chain builder (lines 180
  to 230), with `RawStrike` modelling the three possible outcomes of
  `float(strike)` on the raw provider value.
* `scan_symbol` / `run_scan_multi` — the multi-symbol scan loop (lines
  492 to 532), with `Except` modelling a Python exception escaping.
-/

/-- One row of the compact chain table.  `strike` is the "Strike Price"
column (always a present rational after the builder drops NaN strikes);
the four optional columns model "CE_OI_Change_%", "CE_OI",
"PE_OI_Change_%", "PE_OI" with `none` for missing/NaN. -/
structure CompactRow where
  strike : ℚ
  ce_pchange : Option ℚ
  ce_oi : Option ℚ
  pe_pchange : Option ℚ
  pe_oi : Option ℚ
deriving DecidableEq, Repr

/-- Comparison by the "Strike Price" column, the sort key used by
`df.sort_values("Strike Price")`. -/
def strikeLE (a b : CompactRow) : Prop := a.strike ≤ b.strike

/-- Strict comparison by the "Strike Price" column. -/
def strikeLT (a b : CompactRow) : Prop := a.strike < b.strike

instance : DecidableRel strikeLE := fun a b =>
  inferInstanceAs (Decidable (a.strike ≤ b.strike))

instance : DecidableRel strikeLT := fun a b =>
  inferInstanceAs (Decidable (a.strike < b.strike))

instance : IsTotal CompactRow strikeLE := ⟨fun a b => le_total a.strike b.strike⟩

instance : IsTrans CompactRow strikeLE := ⟨fun _ _ _ hab hbc => le_trans hab hbc⟩

instance : IsAntisymm CompactRow strikeLT :=
  ⟨fun _ _ h h2 => absurd (lt_trans h h2) (lt_irrefl _)⟩

/-- `df.sort_values("Strike Price")`: sort the rows by strike ascending. -/
def sortRows (df : List CompactRow) : List CompactRow :=
  List.insertionSort strikeLE df

/-- `df.tail(n)` on a pandas frame: the last `n` rows. -/
def lastN (n : Nat) (l : List CompactRow) : List CompactRow :=
  l.drop (l.length - n)

/-- One step of the running minimum by absolute distance to `cp`; keeps the
earlier element on a tie, matching the first-minimum-index semantics of
`np.argmin`. -/
def stepMin (cp best x : ℚ) : ℚ :=
  if |x - cp| < |best - cp| then x else best

/-- `strikes[np.argmin(np.abs(strikes - close_price))]`: the strike nearest
to `cp`; on ties the first occurrence in the list wins (np.argmin returns
the first index attaining the minimum). -/
def nearestStrike (strikes : List ℚ) (cp : ℚ) : Option ℚ :=
  match strikes with
  | [] => none
  | s :: ss => some (ss.foldl (stepMin cp) s)

/-- The strike selector `get_otm_strikes(df, close_price)` (source lines
235 to 249).  Returns `(call_otm, put_otm, atm_strike)`: the first two
rows strictly above the close price, the last two rows strictly below it
(both from the ascending-sorted chain), and the nearest strike. -/
def get_otm_strikes (df : List CompactRow) (close_price : ℚ) :
    List CompactRow × List CompactRow × Option ℚ :=
  if df.isEmpty then ([], [], none)
  else
    let d := sortRows df
    let strikes := d.map CompactRow.strike
    if strikes.isEmpty then ([], [], none)
    else
      let atm_strike := nearestStrike strikes close_price
      let call_otm := (d.filter fun r => decide (close_price < r.strike)).take 2
      let put_otm := lastN 2 (d.filter fun r => decide (r.strike < close_price))
      (call_otm, put_otm, atm_strike)

/-- Which metric column the threshold filter reads: the CE or the PE
percentage-change-in-OI column. -/
inductive MetricField where
  | ce
  | pe
deriving DecidableEq, Repr

/-- The metric column of a row selected by a `MetricField`. -/
def metricOf : MetricField → CompactRow → Option ℚ
  | .ce, r => r.ce_pchange
  | .pe, r => r.pe_pchange

/-- Direction of the threshold comparison: `le` is the decay scan
(`metric <= decay_threshold`, the comparison written in the source),
`ge` is the spike direction of the same pattern. -/
inductive CmpDir where
  | le
  | ge
deriving DecidableEq, Repr

/-- The boolean comparison of a present metric value against the
threshold. -/
def cmpB : CmpDir → ℚ → ℚ → Bool
  | .le, v, t => decide (v ≤ t)
  | .ge, v, t => decide (t ≤ v)

/-- The comparison as a proposition. -/
def cmpHolds : CmpDir → ℚ → ℚ → Prop
  | .le, v, t => v ≤ t
  | .ge, v, t => t ≤ v

instance : ∀ (c : CmpDir) (v t : ℚ), Decidable (cmpHolds c v t)
  | .le, v, t => inferInstanceAs (Decidable (v ≤ t))
  | .ge, v, t => inferInstanceAs (Decidable (t ≤ v))

/-- The threshold filter applied to one side of the chain (source lines
469 to 476 and 511 to 518):
`rows[(rows[metric].notna()) & (rows[metric] <= threshold)]`.
A row passes when its metric column is present and the comparison against
the threshold holds. -/
def filter_by_threshold (records : List CompactRow) (f : MetricField)
    (threshold : ℚ) (c : CmpDir) : List CompactRow :=
  records.filter fun r =>
    match metricOf f r with
    | none => false
    | some v => cmpB c v threshold

/-- Outcome of the per-cell IV classification in `style_greeks` (source
lines 254 to 272): the branch structure of the inner highlight function is
`if pd.notna(val): if val >= iv_spike ... elif val <= iv_crush ... `,
with no branch taken for an absent value or a value strictly between the
thresholds. -/
inductive IVClass where
  | SPIKE
  | CRUSH
  | NORMAL
  | UNKNOWN
deriving DecidableEq, Repr

/-- The per-cell spike/crush classification of `style_greeks`, branch for
branch: absent value falls through (`UNKNOWN`), then `val >= iv_spike` is
checked first (`SPIKE`), then `val <= iv_crush` (`CRUSH`), otherwise no
branch fires (`NORMAL`). -/
def classify (value : Option ℚ) (iv_spike iv_crush : ℚ) : IVClass :=
  match value with
  | none => .UNKNOWN
  | some v =>
    if v ≥ iv_spike then .SPIKE
    else if v ≤ iv_crush then .CRUSH
    else .NORMAL

/-- The CSS style string the code attaches to each outcome. -/
def ivStyleString : IVClass → String
  | .SPIKE => "background-color: rgba(0,255,0,0.25);"
  | .CRUSH => "background-color: rgba(255,0,0,0.25);"
  | .NORMAL => ""
  | .UNKNOWN => ""

/-- The per-cell style computed by the highlight closure of
`style_greeks`, written exactly as the source branches. -/
def style_greeks_cell (val : Option ℚ) (iv_spike iv_crush : ℚ) : String :=
  match val with
  | none => ""
  | some v =>
    if v ≥ iv_spike then "background-color: rgba(0,255,0,0.25);"
    else if v ≤ iv_crush then "background-color: rgba(255,0,0,0.25);"
    else ""

/-- Outcome of `float(strike)` on the raw strike value looked up from a
provider item: the conversion can raise (skipped by `continue`), return
NaN (for NaN-like inputs), or return a finite number. -/
inductive RawStrike where
  | unparseable
  | nan
  | num (q : ℚ)
deriving DecidableEq, Repr

/-- One raw provider item of `records.data`, as consumed by
`build_compact_chain_table_nt`.  `strike_lookup` models the combined
lookup `d.get("strikePrice") or d.get("strike")` (`none` when the result
is None); the four optional columns model the safe-getter results after
`pd.to_numeric(..., errors="coerce")`, with `none` for missing or
non-numeric values. -/
structure RawItem where
  expiryDate : Option String
  expiry : Option String
  strike_lookup : Option RawStrike
  ce_pchange_raw : Option ℚ
  ce_oi_raw : Option ℚ
  pe_pchange_raw : Option ℚ
  pe_oi_raw : Option ℚ
deriving DecidableEq, Repr

/-- The expiry selection at the top of the builder: keep the items whose
`expiryDate` or `expiry` equals the requested expiry, falling back to the
whole list when the requested expiry is falsy or matches nothing. -/
def selectData (all_data : List RawItem) (expiry : Option String) :
    List RawItem :=
  match expiry with
  | none => all_data
  | some e =>
    if e = "" then all_data
    else
      let dl := all_data.filter fun d =>
        decide (d.expiryDate = some e) || decide (d.expiry = some e)
      if dl.isEmpty then all_data else dl

/-- One row of the `rows` list accumulated by the builder loop, before the
frame-level NaN drop: the strike has survived `float()` but may still be
NaN (`none`). -/
structure PreRow where
  strike_f : Option ℚ
  ce_pchange : Option ℚ
  ce_oi : Option ℚ
  pe_pchange : Option ℚ
  pe_oi : Option ℚ
deriving DecidableEq, Repr

/-- The builder loop over `data_list`: items whose strike lookup is None
or whose `float()` conversion raises are skipped (`continue`); the rest
yield a `PreRow` whose strike is `none` exactly when `float()` returned
NaN. -/
def buildPreRows (data_list : List RawItem) : List PreRow :=
  data_list.filterMap fun d =>
    match d.strike_lookup with
    | none => none
    | some .unparseable => none
    | some .nan =>
      some ⟨none, d.ce_pchange_raw, d.ce_oi_raw, d.pe_pchange_raw, d.pe_oi_raw⟩
    | some (.num q) =>
      some ⟨some q, d.ce_pchange_raw, d.ce_oi_raw, d.pe_pchange_raw, d.pe_oi_raw⟩

/-- `df.dropna(subset=["Strike Price"])`: keep the rows with a present,
non-NaN strike. -/
def dropnaStrike (rows : List PreRow) : List CompactRow :=
  rows.filterMap fun r =>
    match r.strike_f with
    | none => none
    | some q => some ⟨q, r.ce_pchange, r.ce_oi, r.pe_pchange, r.pe_oi⟩

/-- The compact chain builder `build_compact_chain_table_nt` (source lines
180 to 230), from the already-fetched `records.data` list onward: select
the expiry, build the rows, return None when no row was built, otherwise
drop NaN strikes and sort by strike ascending. -/
def build_compact_chain_table_nt (all_data : List RawItem)
    (expiry : Option String) : Option (List CompactRow) :=
  let data_list := selectData all_data expiry
  let rows := buildPreRows data_list
  if rows.isEmpty then none
  else some (sortRows (dropnaStrike rows))

/-- `df.iloc[0:0]` on a possibly absent frame: attribute access on None
raises AttributeError; on a real frame it yields the empty frame. -/
def df_iloc_empty : Option (List CompactRow) → Except String (List CompactRow)
  | none => .error ("AttributeError: NoneType object has no attribute iloc")
  | some _ => .ok []

/-- `get_otm_strikes` as called on a possibly absent chain: the guard
branch taken when `df is None` itself evaluates `df.iloc[0:0]`, which
raises on None; on a present chain the call is the total function
`get_otm_strikes`. -/
def get_otm_strikes_opt (df : Option (List CompactRow)) (close_price : ℚ) :
    Except String (List CompactRow × List CompactRow × Option ℚ) :=
  match df with
  | none =>
    match df_iloc_empty none with
    | .error e => .error e
    | .ok l => .ok (l, l, none)
  | some l => .ok (get_otm_strikes l close_price)

/-- The per-symbol inputs the multi-symbol loop obtains from its
collaborators: the close price from the price feed and the compact chain
from the builder, each possibly absent. -/
structure SymbolInput where
  symbol : String
  close_price : Option ℚ
  chain : Option (List CompactRow)
deriving DecidableEq, Repr

/-- One output row of the multi-symbol scan: a matching chain row tagged
with Symbol, Side, Close_Price and ATM_Approx, as appended by the loop. -/
structure ResultRow where
  symbol : String
  side : String
  row : CompactRow
  close_price : ℚ
  atm_approx : Option ℚ
deriving DecidableEq, Repr

/-- Tag a list of matching rows with the bookkeeping columns the loop
adds before appending to `all_results`. -/
def tagRows (sym side : String) (cp : ℚ) (atm : Option ℚ)
    (rows : List CompactRow) : List ResultRow :=
  rows.map fun r => ⟨sym, side, r, cp, atm⟩

/-- One iteration of the multi-symbol loop (source lines 492 to 532) for
one symbol: a missing close price or a missing/empty chain produces a
skip entry `(symbol, reason)`; otherwise the strike selector and the
decay filters run and the matching rows are tagged.  An uncaught
exception from the selector would surface as `Except.error`. -/
def scan_symbol (threshold : ℚ) (inp : SymbolInput) :
    Except String (List ResultRow ⊕ String × String) :=
  match inp.close_price with
  | none => .ok (.inr (inp.symbol, "close price unavailable"))
  | some cp =>
    match inp.chain with
    | none => .ok (.inr (inp.symbol, "no option chain"))
    | some compact_df =>
      if compact_df.isEmpty then .ok (.inr (inp.symbol, "no option chain"))
      else
        match get_otm_strikes_opt (some compact_df) cp with
        | .error e => .error e
        | .ok (call_otm, put_otm, atm) =>
          let call_ok := filter_by_threshold call_otm .ce threshold .le
          let put_ok := filter_by_threshold put_otm .pe threshold .le
          .ok (.inl (tagRows inp.symbol ("CALL_OTM") cp atm call_ok ++
                     tagRows inp.symbol ("PUT_OTM") cp atm put_ok))

/-- The same iteration without the exception channel; `scan_symbol` is
proved to always return this value wrapped in `Except.ok`. -/
def scan_symbol_pure (threshold : ℚ) (inp : SymbolInput) :
    List ResultRow ⊕ String × String :=
  match inp.close_price with
  | none => .inr (inp.symbol, "close price unavailable")
  | some cp =>
    match inp.chain with
    | none => .inr (inp.symbol, "no option chain")
    | some compact_df =>
      if compact_df.isEmpty then .inr (inp.symbol, "no option chain")
      else
        let t := get_otm_strikes compact_df cp
        let call_ok := filter_by_threshold t.1 .ce threshold .le
        let put_ok := filter_by_threshold t.2.1 .pe threshold .le
        .inl (tagRows inp.symbol ("CALL_OTM") cp t.2.2 call_ok ++
              tagRows inp.symbol ("PUT_OTM") cp t.2.2 put_ok)

/-- The multi-symbol scan loop: iterate over the symbol inputs in order,
accumulating result rows and skip entries; an exception escaping any
iteration would abort the whole scan. -/
def run_scan_multi (threshold : ℚ) :
    List SymbolInput → Except String (List ResultRow × List (String × String))
  | [] => .ok ([], [])
  | inp :: rest =>
    match scan_symbol threshold inp with
    | .error e => .error e
    | .ok (.inl rows) =>
      match run_scan_multi threshold rest with
      | .error e => .error e
      | .ok (res, skip) => .ok (rows ++ res, skip)
    | .ok (.inr sk) =>
      match run_scan_multi threshold rest with
      | .error e => .error e
      | .ok (res, skip) => .ok (res, sk :: skip)

/-- The scan loop without the exception channel. -/
def run_scan_pure (threshold : ℚ) :
    List SymbolInput → List ResultRow × List (String × String)
  | [] => ([], [])
  | inp :: rest =>
    let p := run_scan_pure threshold rest
    match scan_symbol_pure threshold inp with
    | .inl rows => (rows ++ p.1, p.2)
    | .inr sk => (p.1, sk :: p.2)

/-- A chain row carrying only a strike, used as concrete input in the
witnesses. -/
def exRow (q : ℚ) : CompactRow := ⟨q, none, none, none, none⟩

/-! ### Helper lemmas about the running minimum -/

theorem stepMin_cases (cp s x : ℚ) : stepMin cp s x = x ∨ stepMin cp s x = s := by
  unfold stepMin
  split
  · exact Or.inl rfl
  · exact Or.inr rfl

theorem stepMin_le_left (cp s x : ℚ) : |stepMin cp s x - cp| ≤ |s - cp| := by
  unfold stepMin
  split
  · exact le_of_lt (by assumption)
  · exact le_refl _

theorem stepMin_le_right (cp s x : ℚ) : |stepMin cp s x - cp| ≤ |x - cp| := by
  unfold stepMin
  split
  · exact le_refl _
  · exact le_of_not_lt (by assumption)

theorem foldMin_mem (cp : ℚ) :
    ∀ (ss : List ℚ) (s : ℚ), ss.foldl (stepMin cp) s ∈ s :: ss := by
  intro ss
  induction ss with
  | nil => intro s; simp
  | cons x t ih =>
    intro s
    rw [List.foldl_cons]
    rcases List.mem_cons.mp (ih (stepMin cp s x)) with h1 | h1
    · rcases stepMin_cases cp s x with h2 | h2
      · rw [h1, h2]; simp
      · rw [h1, h2]; simp
    · simp [h1]

theorem foldMin_le (cp : ℚ) :
    ∀ (ss : List ℚ) (s : ℚ), ∀ y ∈ s :: ss,
      |ss.foldl (stepMin cp) s - cp| ≤ |y - cp| := by
  intro ss
  induction ss with
  | nil =>
    intro s y hy
    have h1 : y = s := by simpa using hy
    subst h1
    exact le_refl _
  | cons x t ih =>
    intro s y hy
    rw [List.foldl_cons]
    have hhead : |t.foldl (stepMin cp) (stepMin cp s x) - cp| ≤ |stepMin cp s x - cp| :=
      ih (stepMin cp s x) _ (List.mem_cons_self _ _)
    rcases List.mem_cons.mp hy with h1 | h1
    · subst h1
      exact le_trans hhead (stepMin_le_left cp y x)
    · rcases List.mem_cons.mp h1 with h2 | h2
      · subst h2
        exact le_trans hhead (stepMin_le_right cp s y)
      · exact ih (stepMin cp s x) y (List.mem_cons_of_mem _ h2)

theorem foldMin_first (cp : ℚ) :
    ∀ (ss : List ℚ) (s : ℚ), (s :: ss).Sorted (· ≤ ·) → ∀ y ∈ s :: ss,
      |y - cp| ≤ |ss.foldl (stepMin cp) s - cp| → ss.foldl (stepMin cp) s ≤ y := by
  intro ss
  induction ss with
  | nil =>
    intro s _ y hy _
    have h1 : y = s := by simpa using hy
    subst h1
    exact le_refl _
  | cons x t ih =>
    intro s hsort y hy hle
    rw [List.foldl_cons] at hle ⊢
    obtain ⟨hs_all, hsort1⟩ := List.sorted_cons.mp hsort
    by_cases hc : |x - cp| < |s - cp|
    · have hstep : stepMin cp s x = x := by unfold stepMin; rw [if_pos hc]
      rw [hstep] at hle ⊢
      rcases List.mem_cons.mp hy with h1 | h1
      · subst h1
        have h2 : |t.foldl (stepMin cp) x - cp| ≤ |x - cp| :=
          foldMin_le cp t x x (List.mem_cons_self _ _)
        exact absurd hle (not_le.mpr (lt_of_le_of_lt h2 hc))
      · exact ih x hsort1 y h1 hle
    · have hstep : stepMin cp s x = s := by unfold stepMin; rw [if_neg hc]
      rw [hstep] at hle ⊢
      have hsx : s ≤ x := hs_all x (List.mem_cons_self _ _)
      have hsort2 : (s :: t).Sorted (· ≤ ·) := by
        refine List.sorted_cons.mpr ⟨?_, (List.sorted_cons.mp hsort1).2⟩
        intro b hb
        exact hs_all b (List.mem_cons_of_mem _ hb)
      rcases List.mem_cons.mp hy with h1 | h1
      · subst h1
        exact ih y hsort2 y (List.mem_cons_self _ _) hle
      · rcases List.mem_cons.mp h1 with h2 | h2
        · subst h2
          have h3 : |s - cp| ≤ |y - cp| := le_of_not_lt hc
          have h4 : |s - cp| ≤ |t.foldl (stepMin cp) s - cp| := le_trans h3 hle
          exact le_trans (ih s hsort2 s (List.mem_cons_self _ _) h4) hsx
        · exact ih s hsort2 y (List.mem_cons_of_mem _ h2) hle

theorem nearestStrike_spec (cp : ℚ) (l : List ℚ) (hne : l ≠ [])
    (hsort : l.Sorted (· ≤ ·)) :
    ∃ a, nearestStrike l cp = some a ∧ a ∈ l ∧
      (∀ y ∈ l, |a - cp| ≤ |y - cp|) ∧
      (∀ y ∈ l, |y - cp| = |a - cp| → a ≤ y) := by
  match l with
  | [] => exact absurd rfl hne
  | s :: ss =>
    exact ⟨ss.foldl (stepMin cp) s, rfl, foldMin_mem cp ss s, foldMin_le cp ss s,
      fun y hy heq => foldMin_first cp ss s hsort y hy (le_of_eq heq)⟩

/-! ### Helper lemmas about the sort and the selector components -/

theorem sortRows_perm (df : List CompactRow) : List.Perm (sortRows df) df :=
  List.perm_insertionSort strikeLE df

theorem sortRows_sorted (df : List CompactRow) : (sortRows df).Sorted strikeLE :=
  List.sorted_insertionSort strikeLE df

theorem sortRows_strikes_sorted (df : List CompactRow) :
    ((sortRows df).map CompactRow.strike).Sorted (· ≤ ·) :=
  List.Pairwise.map _ (fun _ _ hab => hab) (sortRows_sorted df)

theorem get_otm_atm_eq (df : List CompactRow) (cp : ℚ) :
    (get_otm_strikes df cp).2.2 =
      nearestStrike ((sortRows df).map CompactRow.strike) cp := by
  simp only [get_otm_strikes]
  split_ifs with h1 h2
  · have h : df = [] := by simpa using h1
    subst h
    rfl
  · have h : (sortRows df).map CompactRow.strike = [] := by simpa using h2
    rw [h]
    rfl
  · rfl

theorem get_otm_call_eq (df : List CompactRow) (cp : ℚ) :
    (get_otm_strikes df cp).1 =
      ((sortRows df).filter fun r => decide (cp < r.strike)).take 2 := by
  simp only [get_otm_strikes]
  split_ifs with h1 h2
  · have h : df = [] := by simpa using h1
    subst h
    rfl
  · have h : sortRows df = [] := by simpa using h2
    rw [h]
    rfl
  · rfl

theorem get_otm_put_eq (df : List CompactRow) (cp : ℚ) :
    (get_otm_strikes df cp).2.1 =
      lastN 2 ((sortRows df).filter fun r => decide (r.strike < cp)) := by
  simp only [get_otm_strikes]
  split_ifs with h1 h2
  · have h : df = [] := by simpa using h1
    subst h
    rfl
  · have h : sortRows df = [] := by simpa using h2
    rw [h]
    rfl
  · rfl

/-! ### Claim theorems -/

/-- C1: for every non-empty chain and every reference price, the ATM value
returned by get_otm_strikes is a strike present in the input chain whose
absolute distance to the reference price is minimal among all strikes;
when two strikes are exactly equidistant, the lower strike is returned. -/
theorem get_otm_strikes_atm_spec (df : List CompactRow) (cp : ℚ) (h : df ≠ []) :
    ∃ a : ℚ, (get_otm_strikes df cp).2.2 = some a ∧
      a ∈ df.map CompactRow.strike ∧
      (∀ s ∈ df.map CompactRow.strike, |a - cp| ≤ |s - cp|) ∧
      (∀ s ∈ df.map CompactRow.strike, |s - cp| = |a - cp| → a ≤ s) := by
  have hperm : List.Perm ((sortRows df).map CompactRow.strike)
      (df.map CompactRow.strike) := (sortRows_perm df).map _
  have hne : (sortRows df).map CompactRow.strike ≠ [] := by
    intro hcon
    rw [hcon] at hperm
    have h2 : df.map CompactRow.strike = [] := hperm.symm.eq_nil
    cases df with
    | nil => exact h rfl
    | cons a t => simp at h2
  obtain ⟨a, ha1, ha2, ha3, ha4⟩ :=
    nearestStrike_spec cp _ hne (sortRows_strikes_sorted df)
  refine ⟨a, ?_, hperm.mem_iff.mp ha2, ?_, ?_⟩
  · rw [get_otm_atm_eq]
    exact ha1
  · intro s hs
    exact ha3 s (hperm.mem_iff.mpr hs)
  · intro s hs heq
    exact ha4 s (hperm.mem_iff.mpr hs) heq

/-- Witness for C1: the chain with strikes 100, 200, 300 at reference
price 250; the tie between 200 and 300 (both at distance 50) resolves to
the lower strike 200. -/
theorem get_otm_strikes_atm_spec_witness :
    ∃ a : ℚ,
      (get_otm_strikes [exRow 100, exRow 200, exRow 300] 250).2.2 = some a ∧
      a ∈ [exRow 100, exRow 200, exRow 300].map CompactRow.strike ∧
      (∀ s ∈ [exRow 100, exRow 200, exRow 300].map CompactRow.strike,
        |a - 250| ≤ |s - 250|) ∧
      (∀ s ∈ [exRow 100, exRow 200, exRow 300].map CompactRow.strike,
        |s - 250| = |a - 250| → a ≤ s) :=
  get_otm_strikes_atm_spec [exRow 100, exRow 200, exRow 300] 250 (by decide)

/-- C2: the selector returns as call side the first two strikes strictly
above the reference price and as put side the last two strikes strictly
below it, both from the ascending-sorted chain; a strike equal to the
reference price appears in neither, and each side has at most two rows. -/
theorem get_otm_strikes_sides_spec (df : List CompactRow) (cp : ℚ) :
    (get_otm_strikes df cp).1 =
        ((sortRows df).filter fun r => decide (cp < r.strike)).take 2 ∧
    (get_otm_strikes df cp).2.1 =
        lastN 2 ((sortRows df).filter fun r => decide (r.strike < cp)) ∧
    (∀ r ∈ (get_otm_strikes df cp).1, cp < r.strike) ∧
    (∀ r ∈ (get_otm_strikes df cp).2.1, r.strike < cp) ∧
    (∀ r ∈ (get_otm_strikes df cp).1, r.strike ≠ cp) ∧
    (∀ r ∈ (get_otm_strikes df cp).2.1, r.strike ≠ cp) ∧
    (get_otm_strikes df cp).1.length ≤ 2 ∧
    (get_otm_strikes df cp).2.1.length ≤ 2 := by
  have hcall : ∀ r ∈ (get_otm_strikes df cp).1, cp < r.strike := by
    intro r hr
    rw [get_otm_call_eq] at hr
    have h1 : r ∈ (sortRows df).filter fun r => decide (cp < r.strike) :=
      List.mem_of_mem_take hr
    have h2 := List.of_mem_filter h1
    exact of_decide_eq_true h2
  have hput : ∀ r ∈ (get_otm_strikes df cp).2.1, r.strike < cp := by
    intro r hr
    rw [get_otm_put_eq] at hr
    simp only [lastN] at hr
    have h1 : r ∈ (sortRows df).filter fun r => decide (r.strike < cp) :=
      List.mem_of_mem_drop hr
    have h2 := List.of_mem_filter h1
    exact of_decide_eq_true h2
  refine ⟨get_otm_call_eq df cp, get_otm_put_eq df cp, hcall, hput,
    fun r hr => ne_of_gt (hcall r hr), fun r hr => ne_of_lt (hput r hr), ?_, ?_⟩
  · rw [get_otm_call_eq]
    exact le_trans (List.length_take_le 2 _) (le_refl 2)
  · rw [get_otm_put_eq]
    simp only [lastN, List.length_drop]
    omega

/-- Witness for C2 at the chain with strikes 100 to 350 and reference
price 250 (Example 1 of the spec). -/
theorem get_otm_strikes_sides_spec_witness :
    (get_otm_strikes
      [exRow 100, exRow 150, exRow 200, exRow 250, exRow 300, exRow 350]
      250).1.length ≤ 2 :=
  (get_otm_strikes_sides_spec
    [exRow 100, exRow 150, exRow 200, exRow 250, exRow 300, exRow 350]
    250).2.2.2.2.2.2.1

/-- C3: the threshold filter returns exactly the subsequence of records
whose selected metric is present and satisfies the comparison against the
threshold; a record with an absent metric is never included. -/
theorem filter_by_threshold_spec (l : List CompactRow) (f : MetricField)
    (t : ℚ) (c : CmpDir) :
    (filter_by_threshold l f t c).Sublist l ∧
    (∀ r, r ∈ filter_by_threshold l f t c ↔
        r ∈ l ∧ ∃ v, metricOf f r = some v ∧ cmpHolds c v t) ∧
    (∀ r ∈ filter_by_threshold l f t c, metricOf f r ≠ none) := by
  refine ⟨List.filter_sublist _, ?_, ?_⟩
  · intro r
    simp only [filter_by_threshold, List.mem_filter]
    constructor
    · rintro ⟨h1, h2⟩
      refine ⟨h1, ?_⟩
      cases hm : metricOf f r with
      | none => rw [hm] at h2; exact absurd h2 (by simp)
      | some v =>
        rw [hm] at h2
        refine ⟨v, rfl, ?_⟩
        cases c with
        | le => exact of_decide_eq_true h2
        | ge => exact of_decide_eq_true h2
    · rintro ⟨h1, v, hv, hcv⟩
      refine ⟨h1, ?_⟩
      rw [hv]
      cases c with
      | le => exact decide_eq_true hcv
      | ge => exact decide_eq_true hcv
  · intro r hr hm
    simp only [filter_by_threshold, List.mem_filter] at hr
    rw [hm] at hr
    simp at hr

/-- Witness for C3: a record with metric minus 40 passes the decay filter
at threshold minus 30 (Example 3 of the spec). -/
theorem filter_by_threshold_spec_witness :
    (⟨100, some (-40), none, none, none⟩ : CompactRow) ∈
      filter_by_threshold [⟨100, some (-40), none, none, none⟩]
        MetricField.ce (-30) CmpDir.le :=
  ((filter_by_threshold_spec [⟨100, some (-40), none, none, none⟩]
      MetricField.ce (-30) CmpDir.le).2.1 _).mpr
    ⟨by simp, -40, rfl, show ((-40 : ℚ) ≤ -30) from by norm_num⟩

/-- C4: on an empty chain the selector returns two empty sequences and an
absent ATM value (and, being a total function, cannot raise). -/
theorem get_otm_strikes_empty (cp : ℚ) :
    get_otm_strikes ([] : List CompactRow) cp = ([], [], none) := rfl

/-- C5: the IV cell classification is UNKNOWN on an absent value, SPIKE
when the value is at least the spike threshold, CRUSH when not SPIKE and
at most the crush threshold, NORMAL otherwise; when the thresholds are
misconfigured so that both conditions hold, SPIKE wins because it is
checked first.  The style string rendered by style_greeks matches the
classification. -/
theorem classify_spec (v iv_spike iv_crush : ℚ) :
    classify none iv_spike iv_crush = IVClass.UNKNOWN ∧
    (v ≥ iv_spike → classify (some v) iv_spike iv_crush = IVClass.SPIKE) ∧
    (¬ v ≥ iv_spike → v ≤ iv_crush →
      classify (some v) iv_spike iv_crush = IVClass.CRUSH) ∧
    (¬ v ≥ iv_spike → ¬ v ≤ iv_crush →
      classify (some v) iv_spike iv_crush = IVClass.NORMAL) ∧
    (iv_crush ≥ iv_spike → v ≥ iv_spike → v ≤ iv_crush →
      classify (some v) iv_spike iv_crush = IVClass.SPIKE) ∧
    (∀ w : Option ℚ, style_greeks_cell w iv_spike iv_crush =
        ivStyleString (classify w iv_spike iv_crush)) := by
  refine ⟨rfl, ?_, ?_, ?_, ?_, ?_⟩
  · intro h1
    simp [classify, h1]
  · intro h1 h2
    simp [classify, h1, h2]
  · intro h1 h2
    simp [classify, h1, h2]
  · intro _ h2 _
    simp [classify, h2]
  · intro w
    cases w with
    | none => rfl
    | some u =>
      simp only [style_greeks_cell, classify]
      split_ifs <;> rfl

/-- Witness for C5: Example 5 of the spec, with spike threshold 50 and
crush threshold 10 a value of 55 classifies as SPIKE. -/
theorem classify_spec_witness :
    classify (some 55) 50 10 = IVClass.SPIKE :=
  (classify_spec 55 50 10).2.1 (by norm_num)

/-- C6: the threshold filter is idempotent: filtering an already-filtered
result with the same parameters returns the same sequence. -/
theorem filter_by_threshold_idempotent (l : List CompactRow) (f : MetricField)
    (t : ℚ) (c : CmpDir) :
    filter_by_threshold (filter_by_threshold l f t c) f t c =
      filter_by_threshold l f t c := by
  simp only [filter_by_threshold, List.filter_filter]
  congr 1
  funext r
  exact Bool.and_self _

/-! ### Permutation invariance of the selector -/

theorem sorted_strikeLT_of_nodup (l : List CompactRow)
    (hs : l.Sorted strikeLE) (hnd : (l.map CompactRow.strike).Nodup) :
    l.Sorted strikeLT := by
  have hne : l.Pairwise fun a b => a.strike ≠ b.strike := List.pairwise_map.mp hnd
  exact hs.imp₂ (fun _ _ h1 h2 => lt_of_le_of_ne h1 h2) hne

theorem sortRows_eq_of_perm (l1 l2 : List CompactRow)
    (hp : List.Perm l1 l2) (hnd : (l1.map CompactRow.strike).Nodup) :
    sortRows l1 = sortRows l2 := by
  have h1 : List.Perm (sortRows l1) (sortRows l2) :=
    ((sortRows_perm l1).trans hp).trans (sortRows_perm l2).symm
  have hnd1 : ((sortRows l1).map CompactRow.strike).Nodup :=
    (((sortRows_perm l1).map CompactRow.strike).nodup_iff).mpr hnd
  have hnd2 : ((sortRows l2).map CompactRow.strike).Nodup :=
    ((h1.map CompactRow.strike).nodup_iff).mp hnd1
  exact List.eq_of_perm_of_sorted h1
    (sorted_strikeLT_of_nodup _ (sortRows_sorted l1) hnd1)
    (sorted_strikeLT_of_nodup _ (sortRows_sorted l2) hnd2)

/-- C8: the strike selector does not require its input to be sorted: on a
chain with unique strikes its whole output is invariant under any
permutation of the records, because it sorts by strike internally. -/
theorem get_otm_strikes_perm_invariant (l1 l2 : List CompactRow) (cp : ℚ)
    (hp : List.Perm l1 l2) (hnd : (l1.map CompactRow.strike).Nodup) :
    get_otm_strikes l1 cp = get_otm_strikes l2 cp := by
  have hs : sortRows l1 = sortRows l2 := sortRows_eq_of_perm l1 l2 hp hnd
  have he : l1.isEmpty = l2.isEmpty := by
    have hl := hp.length_eq
    cases l1 <;> cases l2 <;> simp_all
  unfold get_otm_strikes
  rw [he, hs]

/-- Witness for C8: the two orderings of the strikes 100 and 200 give the
same selector output at reference price 150. -/
theorem get_otm_strikes_perm_invariant_witness :
    get_otm_strikes [exRow 200, exRow 100] 150 =
      get_otm_strikes [exRow 100, exRow 200] 150 :=
  get_otm_strikes_perm_invariant [exRow 200, exRow 100] [exRow 100, exRow 200]
    150 (List.Perm.swap (exRow 100) (exRow 200) []) (by decide)

/-! ### The multi-symbol scan loop -/

theorem scan_symbol_ok (t : ℚ) (inp : SymbolInput) :
    scan_symbol t inp = .ok (scan_symbol_pure t inp) := by
  unfold scan_symbol scan_symbol_pure
  cases inp.close_price with
  | none => rfl
  | some cp =>
    cases inp.chain with
    | none => rfl
    | some df =>
      by_cases h : df.isEmpty
      · simp [h]
      · simp [h, get_otm_strikes_opt]

theorem run_scan_multi_ok (t : ℚ) (l : List SymbolInput) :
    run_scan_multi t l = .ok (run_scan_pure t l) := by
  induction l with
  | nil => rfl
  | cons inp rest ih =>
    unfold run_scan_multi run_scan_pure
    rw [scan_symbol_ok, ih]
    cases scan_symbol_pure t inp with
    | inl rows => rfl
    | inr sk => rfl

theorem run_scan_pure_append (t : ℚ) (xs ys : List SymbolInput) :
    run_scan_pure t (xs ++ ys) =
      ((run_scan_pure t xs).1 ++ (run_scan_pure t ys).1,
       (run_scan_pure t xs).2 ++ (run_scan_pure t ys).2) := by
  induction xs with
  | nil => simp [run_scan_pure]
  | cons inp rest ih =>
    rw [List.cons_append]
    cases h : scan_symbol_pure t inp with
    | inl rows => simp [run_scan_pure, h, ih, List.append_assoc]
    | inr sk => simp [run_scan_pure, h, ih]

/-- C7: in a multi-symbol scan, a symbol with a missing close price or a
missing or empty chain is only recorded as skipped with a reason and does
not abort the scan: the result rows are exactly the result rows of the
scan over the remaining symbols. -/
theorem run_scan_skip_isolated (t : ℚ) (xs ys : List SymbolInput)
    (bad : SymbolInput)
    (hbad : bad.close_price = none ∨ bad.chain = none ∨ bad.chain = some []) :
    ∃ reason : String,
      run_scan_multi t (xs ++ bad :: ys) =
        .ok ((run_scan_pure t xs).1 ++ (run_scan_pure t ys).1,
             (run_scan_pure t xs).2 ++
               (bad.symbol, reason) :: (run_scan_pure t ys).2) ∧
      run_scan_multi t (xs ++ ys) =
        .ok ((run_scan_pure t xs).1 ++ (run_scan_pure t ys).1,
             (run_scan_pure t xs).2 ++ (run_scan_pure t ys).2) := by
  have hbad2 : ∃ reason, scan_symbol_pure t bad = .inr (bad.symbol, reason) := by
    cases hcp : bad.close_price with
    | none => exact ⟨("close price unavailable"), by simp [scan_symbol_pure, hcp]⟩
    | some cp =>
      rcases hbad with h | h | h
      · rw [hcp] at h
        exact absurd h (by simp)
      · exact ⟨("no option chain"), by simp [scan_symbol_pure, hcp, h]⟩
      · exact ⟨("no option chain"), by simp [scan_symbol_pure, hcp, h]⟩
  obtain ⟨reason, hsc⟩ := hbad2
  have hmid : run_scan_pure t (bad :: ys) =
      ((run_scan_pure t ys).1, (bad.symbol, reason) :: (run_scan_pure t ys).2) := by
    simp [run_scan_pure, hsc]
  refine ⟨reason, ?_, ?_⟩
  · rw [run_scan_multi_ok, run_scan_pure_append, hmid]
  · rw [run_scan_multi_ok, run_scan_pure_append]

/-- Witness for C7: one good symbol followed by a symbol with no close
price; the scan returns the good symbol results and one skip entry. -/
theorem run_scan_skip_isolated_witness :
    ∃ reason : String,
      run_scan_multi 0
          ([⟨"AAA", some 150, some [exRow 100, exRow 200]⟩] ++
            (⟨"BBB", none, none⟩ : SymbolInput) :: []) =
        .ok ((run_scan_pure 0 [⟨"AAA", some 150, some [exRow 100, exRow 200]⟩]).1 ++
               (run_scan_pure 0 ([] : List SymbolInput)).1,
             (run_scan_pure 0 [⟨"AAA", some 150, some [exRow 100, exRow 200]⟩]).2 ++
               ((⟨"BBB", none, none⟩ : SymbolInput).symbol, reason) ::
                 (run_scan_pure 0 ([] : List SymbolInput)).2) ∧
      run_scan_multi 0
          ([⟨"AAA", some 150, some [exRow 100, exRow 200]⟩] ++
            ([] : List SymbolInput)) =
        .ok ((run_scan_pure 0 [⟨"AAA", some 150, some [exRow 100, exRow 200]⟩]).1 ++
               (run_scan_pure 0 ([] : List SymbolInput)).1,
             (run_scan_pure 0 [⟨"AAA", some 150, some [exRow 100, exRow 200]⟩]).2 ++
               (run_scan_pure 0 ([] : List SymbolInput)).2) :=
  run_scan_skip_isolated 0 [⟨"AAA", some 150, some [exRow 100, exRow 200]⟩] []
    ⟨"BBB", none, none⟩ (Or.inl rfl)

/-- C9: calling the strike selector on an absent chain raises, because the
guard branch taken when the frame is None itself dereferences
`df.iloc` on None; the scan loop tests for absence before calling, so one
loop iteration never propagates that error. -/
theorem get_otm_strikes_none_raises (cp t : ℚ) (inp : SymbolInput) :
    (∃ msg, get_otm_strikes_opt none cp = .error msg) ∧
    scan_symbol t inp = .ok (scan_symbol_pure t inp) :=
  ⟨⟨"AttributeError: NoneType object has no attribute iloc", rfl⟩,
    scan_symbol_ok t inp⟩

/-! ### The compact chain builder invariant -/

/-- C10 counterexample: a single provider item whose strike value passes
`float()` but parses to NaN makes the `rows` list non-empty, so the
builder does not return None; the frame-level `dropna` on the strike
column then removes the only row, and the builder returns an empty table
rather than an absent value. -/
theorem build_compact_empty_table_counterexample :
    build_compact_chain_table_nt
        [⟨none, none, some RawStrike.nan, none, none, none, none⟩] none =
      some [] ∧
    build_compact_chain_table_nt
        [⟨none, none, some RawStrike.nan, none, none, none, none⟩] none ≠
      none := by
  refine ⟨rfl, ?_⟩
  intro h
  rw [(rfl : build_compact_chain_table_nt
      [⟨none, none, some RawStrike.nan, none, none, none, none⟩] none =
    some [])] at h
  exact Option.noConfusion h

/-- C10 (amended): every table the compact builder produces is sorted by
strike ascending (every row carrying a present numeric strike by
construction) and is a permutation of the non-NaN-strike rows built from
the selected input; when no input row survives the strike lookup and
`float()` conversion, the builder returns an absent value; when at least
one row survives, a table is returned — which is empty exactly when every
surviving strike was NaN. -/
theorem build_compact_invariants (all_data : List RawItem)
    (expiry : Option String) :
    (∀ tbl, build_compact_chain_table_nt all_data expiry = some tbl →
      tbl.Sorted strikeLE ∧
      List.Perm tbl (dropnaStrike (buildPreRows (selectData all_data expiry)))) ∧
    (buildPreRows (selectData all_data expiry) = [] →
      build_compact_chain_table_nt all_data expiry = none) ∧
    (buildPreRows (selectData all_data expiry) ≠ [] →
      build_compact_chain_table_nt all_data expiry =
        some (sortRows (dropnaStrike (buildPreRows (selectData all_data expiry))))) := by
  have hkey : build_compact_chain_table_nt all_data expiry =
      if (buildPreRows (selectData all_data expiry)).isEmpty then none
      else some (sortRows (dropnaStrike (buildPreRows (selectData all_data expiry)))) :=
    rfl
  refine ⟨?_, ?_, ?_⟩
  · intro tbl htbl
    rw [hkey] at htbl
    split_ifs at htbl with h
    rw [← Option.some.inj htbl]
    exact ⟨sortRows_sorted _, sortRows_perm _⟩
  · intro h
    rw [hkey, if_pos (by simp [h])]
  · intro h
    rw [hkey, if_neg (by simpa using h)]

/-- Witness for C10 (amended): two items with finite strikes 200 and 100
produce the sorted two-row table. -/
theorem build_compact_invariants_witness :
    List.Sorted strikeLE
      [(⟨100, none, none, none, none⟩ : CompactRow),
       (⟨200, none, none, none, none⟩ : CompactRow)] :=
  ((build_compact_invariants
      [⟨none, none, some (RawStrike.num 200), none, none, none, none⟩,
       ⟨none, none, some (RawStrike.num 100), none, none, none, none⟩] none).1
    [⟨100, none, none, none, none⟩, ⟨200, none, none, none, none⟩]
    (by decide)).1
